import Mathlib

/-! # Mirror reflection camera and render pass ordering

A shallow embedding of `Mirror::reflect` (Mirror.cpp) and `Application3D::draw`
(Application3D.cpp) of the GraphicsEngine project.

Floating-point values are embedded as exact reals.  An operation whose exact
result is undefined (a division by zero, an arc-cosine outside `[-1, 1]`), and
which in the C++ program yields a NaN that poisons every later value, returns
`none`.
-/

namespace GraphicsEngine

/-! ## Application3D::draw -/

/-- The calls Application3D::draw issues, in the order of the source. -/
inductive RenderOp where
  | clearScreen
  | gizmosDraw
  | scenePredraw
  | fboSetViewport
  | fboBegin
  | cameraSetProjection
  | sceneDraw
  | fboEnd
  | fboDrawToScreen
  | imguiBegin
  | imguiCheckbox
  | imguiEnd
  | imguiSliderFloat3
  | imguiSliderFloat
  | imguiBeginChild
  | imguiSmallButton
  | imguiEndChild
  deriving DecidableEq, Repr

/-- The calls that draw into, clear, bind or present a render target; setting
the projection and building the ImGui panels are not among them. -/
def RenderOp.isRenderTarget : RenderOp → Bool
  | .clearScreen | .gizmosDraw | .scenePredraw | .fboSetViewport | .fboBegin
  | .sceneDraw | .fboEnd | .fboDrawToScreen => true
  | _ => false

/-- The method Application3D::draw, as the sequence of calls of one frame.
`usePostProc` is read at lines 109 and 131; the check box that may change it
comes after both. -/
def Application3D.draw (usePostProc : Bool) : List RenderOp :=
  [.clearScreen, .gizmosDraw, .scenePredraw]
  ++ (if usePostProc then [.fboSetViewport, .fboBegin, .clearScreen] else [])
  ++ [.cameraSetProjection, .sceneDraw]
  ++ (if usePostProc then [.fboEnd, .fboDrawToScreen] else [])
  ++ [.imguiBegin, .imguiCheckbox, .imguiEnd,
      .imguiBegin, .imguiSliderFloat3, .imguiSliderFloat3, .imguiSliderFloat3,
      .imguiSliderFloat3, .imguiSliderFloat, .imguiBeginChild, .imguiSmallButton, .imguiEndChild, .imguiEnd]

noncomputable section

/-! ## glm vectors, quaternions and matrices -/

/-- The glm::vec2 type. -/
structure Vec2 where
  x : ℝ
  y : ℝ

/-- The glm::vec3 type. -/
@[ext] structure Vec3 where
  x : ℝ
  y : ℝ
  z : ℝ

/-- The glm::vec4 type. -/
@[ext] structure Vec4 where
  x : ℝ
  y : ℝ
  z : ℝ
  w : ℝ

/-- The glm::quat type, written in constructor order `quat(w, x, y, z)`. -/
@[ext] structure Quat where
  w : ℝ
  x : ℝ
  y : ℝ
  z : ℝ

/-- The glm::mat4 type: four columns, `m[i]` is column `i`. -/
@[ext] structure Mat4 where
  c0 : Vec4
  c1 : Vec4
  c2 : Vec4
  c3 : Vec4

/-- Componentwise `a + b` on vec3. -/
@[simp] def Vec3.add (a b : Vec3) : Vec3 := ⟨a.x + b.x, a.y + b.y, a.z + b.z⟩

/-- Componentwise `a - b` on vec3. -/
@[simp] def Vec3.sub (a b : Vec3) : Vec3 := ⟨a.x - b.x, a.y - b.y, a.z - b.z⟩

/-- Unary minus on vec3. -/
@[simp] def Vec3.neg (a : Vec3) : Vec3 := ⟨-a.x, -a.y, -a.z⟩

/-- Componentwise `a * b` on vec3. -/
@[simp] def Vec3.mul (a b : Vec3) : Vec3 := ⟨a.x * b.x, a.y * b.y, a.z * b.z⟩

/-- The product `a * k` of a vec3 and a scalar. -/
@[simp] def Vec3.scale (a : Vec3) (k : ℝ) : Vec3 := ⟨a.x * k, a.y * k, a.z * k⟩

/-- The quotient `a / k` of a vec3 and a scalar. -/
@[simp] def Vec3.divScalar (a : Vec3) (k : ℝ) : Vec3 := ⟨a.x / k, a.y / k, a.z / k⟩

/-- Componentwise `a + b` on vec4. -/
@[simp] def Vec4.add (a b : Vec4) : Vec4 := ⟨a.x + b.x, a.y + b.y, a.z + b.z, a.w + b.w⟩

/-- The product `a * k` of a vec4 and a scalar. -/
@[simp] def Vec4.scale (a : Vec4) (k : ℝ) : Vec4 := ⟨a.x * k, a.y * k, a.z * k, a.w * k⟩

/-- The constructor `vec4(v, w)`. -/
@[simp] def vec4 (v : Vec3) (w : ℝ) : Vec4 := ⟨v.x, v.y, v.z, w⟩

/-- The constructor `vec3(v)` from a vec4: drops `w`. -/
@[simp] def vec3 (v : Vec4) : Vec3 := ⟨v.x, v.y, v.z⟩

/-- The constructor `vec3(v, z)` from a vec2 and a scalar. -/
@[simp] def vec3of2 (v : Vec2) (z : ℝ) : Vec3 := ⟨v.x, v.y, z⟩

/-- The function glm::dot on vec3. -/
def dot (a b : Vec3) : ℝ := a.x * b.x + a.y * b.y + a.z * b.z

/-- The function glm::cross. -/
def cross (a b : Vec3) : Vec3 :=
  ⟨a.y * b.z - b.y * a.z, a.z * b.x - b.z * a.x, a.x * b.y - b.x * a.y⟩

/-- The function glm::min on vec3, componentwise. -/
@[simp] def vmin (a b : Vec3) : Vec3 := ⟨min a.x b.x, min a.y b.y, min a.z b.z⟩

/-- The function glm::max on vec3, componentwise. -/
@[simp] def vmax (a b : Vec3) : Vec3 := ⟨max a.x b.x, max a.y b.y, max a.z b.z⟩

/-- The function glm::normalize, `v * inversesqrt(dot(v, v))`.  At the zero
vector the factor is `1 / 0`: the result is undefined. -/
def normalize (v : Vec3) : Option Vec3 :=
  if dot v v = 0 then none else some (v.scale (1 / Real.sqrt (dot v v)))

/-- The function acos: undefined outside `[-1, 1]`. -/
def acos (x : ℝ) : Option ℝ :=
  if -1 ≤ x ∧ x ≤ 1 then some (Real.arccos x) else none

/-- The matrix-vector product `m * v` of glm. -/
@[simp] def Mat4.mulVec (m : Mat4) (v : Vec4) : Vec4 :=
  ⟨m.c0.x * v.x + m.c1.x * v.y + m.c2.x * v.z + m.c3.x * v.w,
   m.c0.y * v.x + m.c1.y * v.y + m.c2.y * v.z + m.c3.y * v.w,
   m.c0.z * v.x + m.c1.z * v.y + m.c2.z * v.z + m.c3.z * v.w,
   m.c0.w * v.x + m.c1.w * v.y + m.c2.w * v.z + m.c3.w * v.w⟩

/-- The matrix product `a * b` of glm: column `i` is `a * b[i]`. -/
@[simp] def Mat4.mul (a b : Mat4) : Mat4 :=
  ⟨a.mulVec b.c0, a.mulVec b.c1, a.mulVec b.c2, a.mulVec b.c3⟩

/-- The identity matrix `mat4(1)`. -/
@[simp] def Mat4.one : Mat4 := ⟨⟨1, 0, 0, 0⟩, ⟨0, 1, 0, 0⟩, ⟨0, 0, 1, 0⟩, ⟨0, 0, 0, 1⟩⟩

/-- The function glm::translate(m, v). -/
@[simp] def translate (m : Mat4) (v : Vec3) : Mat4 :=
  ⟨m.c0, m.c1, m.c2, (((m.c0.scale v.x).add (m.c1.scale v.y)).add (m.c2.scale v.z)).add m.c3⟩

/-- The function glm::scale(m, v). -/
@[simp] def scaleMat (m : Mat4) (v : Vec3) : Mat4 :=
  ⟨m.c0.scale v.x, m.c1.scale v.y, m.c2.scale v.z, m.c3⟩

/-- The function glm::mat4_cast: the rotation matrix of a quaternion. -/
@[simp] def mat4_cast (q : Quat) : Mat4 :=
  ⟨⟨1 - 2 * (q.y * q.y + q.z * q.z), 2 * (q.x * q.y + q.w * q.z), 2 * (q.x * q.z - q.w * q.y), 0⟩,
   ⟨2 * (q.x * q.y - q.w * q.z), 1 - 2 * (q.x * q.x + q.z * q.z), 2 * (q.y * q.z + q.w * q.x), 0⟩,
   ⟨2 * (q.x * q.z + q.w * q.y), 2 * (q.y * q.z - q.w * q.x), 1 - 2 * (q.x * q.x + q.y * q.y), 0⟩,
   ⟨0, 0, 0, 1⟩⟩

/-- The function glm::angleAxis(angle, v). -/
@[simp] def angleAxis (angle : ℝ) (v : Vec3) : Quat :=
  let s := Real.sin (angle * (1 / 2))
  ⟨Real.cos (angle * (1 / 2)), v.x * s, v.y * s, v.z * s⟩

/-- The constructor `quat(eulerAngles)` of glm. -/
@[simp] def quatOfEuler (e : Vec3) : Quat :=
  let cx := Real.cos (e.x * (1 / 2))
  let cy := Real.cos (e.y * (1 / 2))
  let cz := Real.cos (e.z * (1 / 2))
  let sx := Real.sin (e.x * (1 / 2))
  let sy := Real.sin (e.y * (1 / 2))
  let sz := Real.sin (e.z * (1 / 2))
  ⟨cx * cy * cz + sx * sy * sz,
   sx * cy * cz - cx * sy * sz,
   cx * sy * cz + sx * cy * sz,
   cx * cy * sz - sx * sy * cz⟩

/-- The quaternion product `p * q` of glm. -/
@[simp] def Quat.mul (p q : Quat) : Quat :=
  ⟨p.w * q.w - p.x * q.x - p.y * q.y - p.z * q.z,
   p.w * q.x + p.x * q.w + p.y * q.z - p.z * q.y,
   p.w * q.y + p.y * q.w + p.z * q.x - p.x * q.z,
   p.w * q.z + p.z * q.w + p.x * q.y - p.y * q.x⟩

/-- The function glm::conjugate. -/
@[simp] def Quat.conjugate (q : Quat) : Quat := ⟨q.w, -q.x, -q.y, -q.z⟩

/-- The rotation `q * v` of a vec3 by a quaternion, as glm computes it. -/
@[simp] def Quat.rotate (q : Quat) (v : Vec3) : Vec3 :=
  let u : Vec3 := ⟨q.x, q.y, q.z⟩
  let uv := cross u v
  let uuv := cross u uv
  v.add (((uv.scale q.w).add uuv).scale 2)

/-- A quaternion is normalised when its squared length is one. -/
def Quat.IsUnit (q : Quat) : Prop := q.w * q.w + q.x * q.x + q.y * q.y + q.z * q.z = 1

/-- The arguments of one call of glm::frustum. -/
@[ext] structure FrustumArgs where
  left : ℝ
  right : ℝ
  bottom : ℝ
  top : ℝ
  near : ℝ
  far : ℝ

/-- The function glm::frustum(left, right, bottom, top, near, far).  Its
entries divide by `right - left`, `top - bottom` and `far - near`. -/
def frustum (a : FrustumArgs) : Option Mat4 :=
  if a.right - a.left = 0 ∨ a.top - a.bottom = 0 ∨ a.far - a.near = 0 then none
  else some
    ⟨⟨(2 * a.near) / (a.right - a.left), 0, 0, 0⟩,
     ⟨0, (2 * a.near) / (a.top - a.bottom), 0, 0⟩,
     ⟨(a.right + a.left) / (a.right - a.left), (a.top + a.bottom) / (a.top - a.bottom),
      -(a.far + a.near) / (a.far - a.near), -1⟩,
     ⟨0, 0, -(2 * a.far * a.near) / (a.far - a.near), 0⟩⟩

/-! ## Transform and Camera -/

/-- Modelled from the spec: the Transform class (its header and source are not
among the source files): "position (3D vector), orientation (unit quaternion),
optional uniform scale". -/
structure Transform where
  position : Vec3
  orientation : Quat
  scale : ℝ

/-- Modelled from the spec: the constant Transform::vOut, the fixed local "out"
axis; the mirror quad lies in the plane `z = 0` (Mirror::buildQuad) and the
camera looks along `-vOut` (Mirror.cpp line 57), so it is `+Z`. -/
def Transform.vOut : Vec3 := ⟨0, 0, 1⟩

/-- Modelled from the spec: the constant Transform::vUp, `+Y`. -/
def Transform.vUp : Vec3 := ⟨0, 1, 0⟩

/-- Modelled from the spec: the constant Transform::vRight, `+X`. -/
def Transform.vRight : Vec3 := ⟨1, 0, 0⟩

/-- The matrix SceneEntity::GetTransform (SceneEntity.cpp lines 25-28) builds
when the transform needs an update: translation, then rotation, then uniform
scale. -/
def SceneEntity.GetTransform (m_position : Vec3) (m_rotation : Quat) (m_scaleFactor : ℝ) :
    Mat4 :=
  let transform := Mat4.one
  let transform := translate transform m_position
  let transform := transform.mul (mat4_cast m_rotation)
  let transform := scaleMat transform ⟨m_scaleFactor, m_scaleFactor, m_scaleFactor⟩
  transform

/-- Modelled from the spec: Transform::getMatrix, "a composed model matrix
(translation × rotation × scale)", composed the way SceneEntity::GetTransform
composes its own. -/
def Transform.getMatrix (t : Transform) : Mat4 :=
  let transform := Mat4.one
  let transform := translate transform t.position
  let transform := transform.mul (mat4_cast t.orientation)
  scaleMat transform ⟨t.scale, t.scale, t.scale⟩

/-- Modelled from the spec: the state of a Camera (Camera.h is not among the
source files): position, orientation and projection matrix. -/
structure Camera where
  position : Vec3
  orientation : Quat
  projection : Mat4

/-- Modelled from the spec: Camera::setPosition. -/
def Camera.setPosition (c : Camera) (p : Vec3) : Camera := { c with position := p }

/-- Modelled from the spec: Camera::setOrientation. -/
def Camera.setOrientation (c : Camera) (q : Quat) : Camera := { c with orientation := q }

/-- Modelled from the spec: Camera::setProjection. -/
def Camera.setProjection (c : Camera) (m : Mat4) : Camera := { c with projection := m }

/-- Modelled from the spec: the matrix of Camera::getView, "inverse of the
camera's own world transform" (translation × rotation), for a normalised
orientation: the conjugate rotation after the opposite translation. -/
def Camera.getViewMatrix (c : Camera) : Mat4 :=
  (mat4_cast c.orientation.conjugate).mul (translate Mat4.one c.position.neg)

/-! ## Mirror::reflect -/

/-- The Mirror object: its size and the camera it owns. -/
structure Mirror where
  m_size : Vec2
  m_camera : Camera

/-- Line 26 of Mirror::reflect: `vec3(transform * vec4(Transform::vOut, 0))`. -/
def Mirror.worldNormal (mirror : Transform) : Vec3 :=
  let transform := mirror.getMatrix
  vec3 (transform.mulVec (vec4 Transform.vOut 0))

/-- The local variables of Mirror::reflect after line 54. -/
structure ReflectPose where
  worldNormal : Vec3
  view : Vec3
  nView : Vec3
  axis : Vec3
  halfAngle : ℝ
  inverseAngle : ℝ
  rotation : Quat
  rView : Vec3
  result : Camera

/-- Lines 24-54 of Mirror::reflect: the position and orientation of the
reflected camera.  `m_camera` is the camera the mirror owns, which the code
updates in place. -/
def Mirror.reflectPose (m_camera : Camera) (mirror camera : Transform) : Option ReflectPose := do
  let worldNormal := Mirror.worldNormal mirror
  let view := camera.position.sub mirror.position
  let nView ← normalize view
  let axis ← normalize (cross worldNormal nView)
  let halfAngle ← acos (dot nView worldNormal)
  let inverseAngle := Real.pi / 2 - halfAngle
  let rotation := angleAxis (2 * inverseAngle) axis
  let rView := vec3 ((mat4_cast rotation).mulVec (vec4 view 0))
  let result := m_camera
  let result := result.setOrientation (mirror.orientation.mul (quatOfEuler ⟨0, Real.pi, 0⟩))
  let result := result.setPosition (mirror.position.add rView)
  some ⟨worldNormal, view, nView, axis, halfAngle, inverseAngle, rotation, rView, result⟩

/-- The local variables of lines 61-76 of Mirror::reflect. -/
structure ReflectFrustum where
  topRight : Vec4
  bottomLeft : Vec4
  mins : Vec3
  maxs : Vec3
  args : FrustumArgs

/-- Lines 61-76 of Mirror::reflect: the two corners in camera space, their
componentwise minimum and maximum, and the arguments given to glm::frustum. -/
def Mirror.reflectFrustum (m_size : Vec2) (mirror : Transform) (result : Camera) :
    ReflectFrustum :=
  let transform := mirror.getMatrix
  let topRight :=
    vec4 (((Transform.vUp.add Transform.vRight).mul (vec3of2 m_size 0)).divScalar 2) 1
  let bottomLeft :=
    vec4 (((Transform.vUp.add Transform.vRight).mul (vec3of2 m_size 0)).divScalar (-2)) 1
  let topRight := transform.mulVec topRight
  let bottomLeft := transform.mulVec bottomLeft
  let topRight := result.getViewMatrix.mulVec topRight
  let bottomLeft := result.getViewMatrix.mulVec bottomLeft
  let mins := vmin (vec3 topRight) (vec3 bottomLeft)
  let maxs := vmax (vec3 topRight) (vec3 bottomLeft)
  ⟨topRight, bottomLeft, mins, maxs, ⟨mins.x, maxs.x, mins.y, maxs.y, -mins.z, 1000⟩⟩

/-- The vector from the mirror's position to the camera's, in the camera's own
axes: what the view matrix subtracts from every point of the mirror. -/
def cameraOffset (mirror : Transform) (result : Camera) : Vec3 :=
  vec3 ((mat4_cast result.orientation.conjugate).mulVec
    (vec4 (result.position.sub mirror.position) 0))

/-- The method Mirror::reflect: the new state of the camera the mirror owns,
which the method returns by reference.  A division by zero inside glm::frustum
leaves the projection undefined; the camera as a whole is then `none`, although
the position and orientation set at lines 53 and 54 (the `result` of
`Mirror.reflectPose`) are defined. -/
def Mirror.reflect (self : Mirror) (mirror camera : Transform) : Option Camera := do
  let pose ← Mirror.reflectPose self.m_camera mirror camera
  let fr := Mirror.reflectFrustum self.m_size mirror pose.result
  let projection ← frustum fr.args
  some (pose.result.setProjection projection)

/-- The frustum of the spec's steps 7 and 8, over all four corners of the quad
(the corners Mirror::buildQuad lists): "transform them to world space via the
mirror's model matrix, then into the reflected camera's view space via its view
matrix", then "left/right = x min/max, bottom/top = y min/max, near = -z max,
far = fixed far plane constant". -/
def fourCornerFrustum (m_size : Vec2) (mirror : Transform) (result : Camera) : FrustumArgs :=
  let toCamera := fun (c : Vec4) =>
    vec3 (result.getViewMatrix.mulVec (mirror.getMatrix.mulVec c))
  let c1 := toCamera ⟨-(m_size.x / 2), -(m_size.y / 2), 0, 1⟩
  let c2 := toCamera ⟨m_size.x / 2, -(m_size.y / 2), 0, 1⟩
  let c3 := toCamera ⟨m_size.x / 2, m_size.y / 2, 0, 1⟩
  let c4 := toCamera ⟨-(m_size.x / 2), m_size.y / 2, 0, 1⟩
  ⟨min (min c1.x c2.x) (min c3.x c4.x), max (max c1.x c2.x) (max c3.x c4.x),
   min (min c1.y c2.y) (min c3.y c4.y), max (max c1.y c2.y) (max c3.y c4.y),
   -(max (max c1.z c2.z) (max c3.z c4.z)), 1000⟩

/-! ## Concrete inputs -/

/-- A camera at the origin with identity orientation and identity projection. -/
def originCamera : Camera := ⟨⟨0, 0, 0⟩, ⟨1, 0, 0, 0⟩, Mat4.one⟩

/-- A mirror object of size 2 × 2. -/
def squareMirror : Mirror := ⟨⟨2, 2⟩, originCamera⟩

/-- The mirror transform of the scenario: at the origin, identity orientation,
unit scale. -/
def mirrorAtOrigin : Transform := ⟨⟨0, 0, 0⟩, ⟨1, 0, 0, 0⟩, 1⟩

/-- A mirror transform at the origin with identity orientation and scale 2. -/
def mirrorScaledTwice : Transform := ⟨⟨0, 0, 0⟩, ⟨1, 0, 0, 0⟩, 2⟩

/-- A mirror transform at `(1, 2, 3)` with identity orientation and unit scale. -/
def mirrorShifted : Transform := ⟨⟨1, 2, 3⟩, ⟨1, 0, 0, 0⟩, 1⟩

/-- A mirror transform at `(1, 2, 3)`, unit scale, turned about the X axis by
the normalised quaternion `(3/5, 4/5, 0, 0)`. -/
def mirrorTilted : Transform := ⟨⟨1, 2, 3⟩, ⟨3 / 5, 4 / 5, 0, 0⟩, 1⟩

/-- A viewer at `(2, 1, 3)`, in front of the tilted mirror and off its normal
line. -/
def viewerByTilted : Transform := ⟨⟨2, 1, 3⟩, ⟨1, 0, 0, 0⟩, 1⟩

/-- The viewer of the scenario: at `(0, 0, 5)` with identity orientation. -/
def viewerOnAxis : Transform := ⟨⟨0, 0, 5⟩, ⟨1, 0, 0, 0⟩, 1⟩

/-- A viewer at `(3, 0, 4)`, in front of the mirror at the origin and off its
normal line. -/
def viewerOffAxis : Transform := ⟨⟨3, 0, 4⟩, ⟨1, 0, 0, 0⟩, 1⟩

/-- A viewer at `(1, 2, 7)`, on the normal line of the shifted mirror. -/
def viewerOnShiftedAxis : Transform := ⟨⟨1, 2, 7⟩, ⟨1, 0, 0, 0⟩, 1⟩

/-! ## Vector algebra -/

section Algebra

/-- Lagrange's identity for the cross product. -/
theorem dot_cross_self (a b : Vec3) :
    dot (cross a b) (cross a b) = dot a a * dot b b - dot a b ^ 2 := by
  simp only [dot, cross]
  ring

/-- The cross product is linear in its second argument. -/
theorem cross_scale (a b : Vec3) (k : ℝ) : cross a (b.scale k) = (cross a b).scale k := by
  ext <;> simp [cross] <;> ring

/-- The dot product is linear in its first argument. -/
theorem dot_scale_left (a b : Vec3) (k : ℝ) : dot (a.scale k) b = dot a b * k := by
  simp [dot]
  ring

/-- The dot product is linear in its second argument. -/
theorem dot_scale_right (a b : Vec3) (k : ℝ) : dot a (b.scale k) = dot a b * k := by
  simp [dot]
  ring

/-- The dot product is symmetric. -/
theorem dot_comm (a b : Vec3) : dot a b = dot b a := by
  simp [dot]
  ring

/-- Only the zero vector has squared length zero. -/
theorem dot_self_eq_zero {v : Vec3} (h : dot v v = 0) : v = ⟨0, 0, 0⟩ := by
  simp only [dot] at h
  have hx : v.x = 0 := by nlinarith [mul_self_nonneg v.x, mul_self_nonneg v.y, mul_self_nonneg v.z]
  have hy : v.y = 0 := by nlinarith [mul_self_nonneg v.x, mul_self_nonneg v.y, mul_self_nonneg v.z]
  have hz : v.z = 0 := by nlinarith [mul_self_nonneg v.x, mul_self_nonneg v.y, mul_self_nonneg v.z]
  ext <;> simp [hx, hy, hz]

/-- A non-zero vector has positive squared length. -/
theorem dot_self_pos {v : Vec3} (h : v ≠ ⟨0, 0, 0⟩) : 0 < dot v v := by
  have h0 : 0 ≤ dot v v := by
    simp only [dot]
    nlinarith [mul_self_nonneg v.x, mul_self_nonneg v.y, mul_self_nonneg v.z]
  rcases h0.lt_or_eq with h1 | h1
  · exact h1
  · exact absurd (dot_self_eq_zero h1.symm) h

/-- The rotation matrix of the quaternion `(w, k (n × v))` sends `v` to its
mirror image in the plane with normal `n`, when `w` and `k` satisfy the two
scalar relations of a rotation by `π - 2θ`. -/
theorem mat4_cast_reflects (n v : Vec3) (w k : ℝ)
    (h1 : w * k * dot v v = dot v n)
    (h2 : w * k * dot n v = k ^ 2 * (dot v v * dot n n - dot n v ^ 2)) :
    vec3 ((mat4_cast ⟨w, (cross n v).x * k, (cross n v).y * k, (cross n v).z * k⟩).mulVec
        (vec4 v 0))
      = v.sub (n.scale (2 * dot v n)) := by
  simp only [dot] at h1 h2
  ext
  · simp [cross, dot]
    linear_combination (2 * v.x) * h2 - (2 * n.x) * h1
  · simp [cross, dot]
    linear_combination (2 * v.y) * h2 - (2 * n.y) * h1
  · simp [cross, dot]
    linear_combination (2 * v.z) * h2 - (2 * n.z) * h1

/-- Transform::getMatrix is the matrix SceneEntity::GetTransform builds. -/
theorem getMatrix_eq_GetTransform (t : Transform) :
    t.getMatrix = SceneEntity.GetTransform t.position t.orientation t.scale := rfl

/-- The view matrix is the inverse of the camera's world transform, translation
times rotation, when the orientation is normalised. -/
theorem getViewMatrix_mul_world (c : Camera) (hq : c.orientation.IsUnit) :
    c.getViewMatrix.mul ((translate Mat4.one c.position).mul (mat4_cast c.orientation))
      = Mat4.one := by
  obtain ⟨pc, q, proj⟩ := c
  unfold Quat.IsUnit at hq
  simp only at hq
  simp only [Camera.getViewMatrix, mat4_cast, translate, Quat.conjugate, Vec3.neg, Mat4.mulVec,
    Mat4.mul, Mat4.one, Vec4.scale, Vec4.add]
  ext
  · simp only; linear_combination (4 * (q.y ^ 2 + q.z ^ 2)) * hq
  · simp only; linear_combination (-4 * q.x * q.y) * hq
  · simp only; linear_combination (-4 * q.x * q.z) * hq
  · simp only; ring
  · simp only; linear_combination (-4 * q.x * q.y) * hq
  · simp only; linear_combination (4 * (q.x ^ 2 + q.z ^ 2)) * hq
  · simp only; linear_combination (-4 * q.y * q.z) * hq
  · simp only; ring
  · simp only; linear_combination (-4 * q.x * q.z) * hq
  · simp only; linear_combination (-4 * q.y * q.z) * hq
  · simp only; linear_combination (4 * (q.x ^ 2 + q.y ^ 2)) * hq
  · simp only; ring
  · simp only; ring
  · simp only; ring
  · simp only; ring
  · simp only; ring

/-- The world normal is the out axis rotated by the orientation, times the scale. -/
theorem worldNormal_eq_rotate (mirror : Transform) :
    Mirror.worldNormal mirror
      = (mirror.orientation.rotate Transform.vOut).scale mirror.scale := by
  ext <;> simp only [Mirror.worldNormal, Transform.getMatrix, Transform.vOut, cross, mat4_cast,
    translate, scaleMat, Quat.rotate, Vec3.scale, Vec3.add, vec3, vec4, Mat4.mulVec, Mat4.mul,
    Mat4.one, Vec4.scale, Vec4.add] <;> ring

/-- The squared length of the world normal is the squared scale. -/
theorem dot_worldNormal_self (mirror : Transform) (hq : mirror.orientation.IsUnit) :
    dot (Mirror.worldNormal mirror) (Mirror.worldNormal mirror) = mirror.scale ^ 2 := by
  unfold Quat.IsUnit at hq
  simp [Mirror.worldNormal, Transform.getMatrix, Transform.vOut, dot, mat4_cast,
    translate, scaleMat]
  linear_combination
    (4 * (mirror.orientation.x ^ 2 + mirror.orientation.y ^ 2) * mirror.scale ^ 2) * hq

/-- The quaternion `quat(vec3(0, π, 0))` is the half turn about the up axis. -/
theorem quatOfEuler_pi : quatOfEuler ⟨0, Real.pi, 0⟩ = ⟨0, 0, 1, 0⟩ := by
  have h : Real.pi * 2⁻¹ = Real.pi / 2 := by ring
  ext <;> simp [quatOfEuler, h]

/-- What lines 24-54 of Mirror::reflect compute for a unit-scale mirror and a
viewer off the mirror's normal line: every step is defined and the reflected
view vector is the mirror image of the view vector. -/
theorem reflectPose_eq (m_camera : Camera) (mirror camera : Transform)
    (hq : mirror.orientation.IsUnit) (hs : mirror.scale = 1)
    (hx : cross (Mirror.worldNormal mirror) (camera.position.sub mirror.position) ≠ ⟨0, 0, 0⟩) :
    ∃ p, Mirror.reflectPose m_camera mirror camera = some p ∧
      p.worldNormal = Mirror.worldNormal mirror ∧
      p.view = camera.position.sub mirror.position ∧
      p.nView = p.view.scale (1 / Real.sqrt (dot p.view p.view)) ∧
      (-1 < dot p.nView p.worldNormal ∧ dot p.nView p.worldNormal < 1) ∧
      p.halfAngle = Real.arccos (dot p.nView p.worldNormal) ∧
      p.rView = p.view.sub (p.worldNormal.scale (2 * dot p.view p.worldNormal)) ∧
      p.result = ⟨mirror.position.add p.rView, mirror.orientation.mul ⟨0, 0, 1, 0⟩,
        m_camera.projection⟩ := by
  have hnn : dot (Mirror.worldNormal mirror) (Mirror.worldNormal mirror) = 1 := by
    rw [dot_worldNormal_self _ hq, hs]; norm_num
  unfold Mirror.reflectPose
  generalize Mirror.worldNormal mirror = n at hx hnn ⊢
  generalize camera.position.sub mirror.position = v at hx ⊢
  have hv0 : v ≠ ⟨0, 0, 0⟩ := by
    rintro rfl
    apply hx
    ext <;> simp [cross]
  have hvv : 0 < dot v v := dot_self_pos hv0
  have hL : 0 < Real.sqrt (dot v v) := Real.sqrt_pos.mpr hvv
  have hLL : Real.sqrt (dot v v) * Real.sqrt (dot v v) = dot v v := Real.mul_self_sqrt hvv.le
  have hnorm1 : normalize v = some (v.scale (1 / Real.sqrt (dot v v))) := by
    unfold normalize
    rw [if_neg hvv.ne']
  generalize hLdef : Real.sqrt (dot v v) = L at hL hLL hnorm1
  have hX : cross n (v.scale (1 / L)) = (cross n v).scale (1 / L) := cross_scale n v (1 / L)
  have hc : dot (v.scale (1 / L)) n * L = dot v n := by
    rw [dot_scale_left]
    field_simp
  have hD : dot (cross n (v.scale (1 / L))) (cross n (v.scale (1 / L)))
      = 1 - dot (v.scale (1 / L)) n ^ 2 := by
    rw [dot_cross_self, hnn]
    simp only [dot_scale_left, dot_scale_right]
    rw [dot_comm n v, ← hLL]
    field_simp
  have hDpos : 0 < dot (cross n (v.scale (1 / L))) (cross n (v.scale (1 / L))) := by
    apply dot_self_pos
    rw [hX]
    intro h
    apply hx
    have hx1 := congrArg Vec3.x h
    have hy1 := congrArg Vec3.y h
    have hz1 := congrArg Vec3.z h
    simp only [Vec3.scale] at hx1 hy1 hz1
    have hL1 : (1 / L) ≠ 0 := by positivity
    ext
    · exact (mul_eq_zero.mp hx1).resolve_right hL1
    · exact (mul_eq_zero.mp hy1).resolve_right hL1
    · exact (mul_eq_zero.mp hz1).resolve_right hL1
  have hnorm2 : normalize (cross n (v.scale (1 / L)))
      = some ((cross n (v.scale (1 / L))).scale
          (1 / Real.sqrt (dot (cross n (v.scale (1 / L))) (cross n (v.scale (1 / L)))))) := by
    unfold normalize
    rw [if_neg hDpos.ne']
  have hS : 0 < Real.sqrt (dot (cross n (v.scale (1 / L))) (cross n (v.scale (1 / L)))) :=
    Real.sqrt_pos.mpr hDpos
  have hSS := Real.mul_self_sqrt hDpos.le
  have hcos : Real.sqrt (1 - dot (v.scale (1 / L)) n ^ 2)
      = Real.sqrt (dot (cross n (v.scale (1 / L))) (cross n (v.scale (1 / L)))) := by
    rw [hD]
  generalize Real.sqrt (dot (cross n (v.scale (1 / L))) (cross n (v.scale (1 / L)))) = S
    at hnorm2 hS hSS hcos
  rw [hD] at hDpos hSS
  generalize hcdef : dot (v.scale (1 / L)) n = c at hc hD hDpos hSS hcos
  have hc1 : -1 < c := by nlinarith
  have hc2 : c < 1 := by nlinarith
  have hacos : acos c = some (Real.arccos c) := by
    unfold acos
    rw [if_pos ⟨hc1.le, hc2.le⟩]
  have hangle : 2 * (Real.pi / 2 - Real.arccos c) * (1 / 2) = Real.pi / 2 - Real.arccos c := by
    ring
  have hrot : angleAxis (2 * (Real.pi / 2 - Real.arccos c))
        ((cross n (v.scale (1 / L))).scale (1 / S))
      = ⟨S, (cross n v).x * (1 / L * (1 / S) * c), (cross n v).y * (1 / L * (1 / S) * c),
          (cross n v).z * (1 / L * (1 / S) * c)⟩ := by
    rw [hX]
    simp only [angleAxis, hangle, Real.cos_pi_div_two_sub, Real.sin_pi_div_two_sub,
      Real.sin_arccos, Real.cos_arccos hc1.le hc2.le, hcos, Vec3.scale]
    ext <;> simp <;> ring
  have hLne : L ≠ 0 := hL.ne'
  have hSne : S ≠ 0 := hS.ne'
  have h1 : S * (1 / L * (1 / S) * c) * dot v v = dot v n := by
    rw [← hLL, ← hc]
    field_simp
    ring
  have h2 : S * (1 / L * (1 / S) * c) * dot n v
      = (1 / L * (1 / S) * c) ^ 2 * (dot v v * dot n n - dot n v ^ 2) := by
    have e1 : S * (1 / L * (1 / S) * c) * (c * L) = c ^ 2 := by
      field_simp
      ring
    have e2 : (1 / L * (1 / S) * c) ^ 2 * (L * L * 1 - (c * L) ^ 2)
        = c ^ 2 * (1 - c ^ 2) / (S * S) := by
      field_simp
      ring
    have hne : 1 - c ^ 2 ≠ 0 := hDpos.ne'
    rw [hnn, dot_comm n v, ← hc, ← hLL, e1, e2, hSS]
    field_simp
  have hrv := mat4_cast_reflects n v S (1 / L * (1 / S) * c) h1 h2
  rw [← hrot] at hrv
  simp only [hnorm1, hnorm2, hcdef, hacos, Option.bind_eq_bind, Option.some_bind, bind_pure_comp]
  refine ⟨_, rfl, rfl, rfl, ?_, ?_, ?_, ?_, ?_⟩
  · show v.scale (1 / L) = v.scale (1 / Real.sqrt (dot v v))
    rw [hLdef]
  · show -1 < dot (v.scale (1 / L)) n ∧ dot (v.scale (1 / L)) n < 1
    rw [hcdef]
    exact ⟨hc1, hc2⟩
  · show Real.arccos c = Real.arccos (dot (v.scale (1 / L)) n)
    rw [hcdef]
  · exact hrv
  · simp only [hrv, quatOfEuler_pi, Camera.setOrientation, Camera.setPosition]

/-- A corner `(a, b, 0)` of the mirror's plane, taken to world space by the
mirror's model matrix and to camera space by the view matrix of a camera whose
orientation is the mirror's followed by the half turn about the up axis. -/
theorem corner_camera_space (mirror : Transform) (result : Camera)
    (hq : mirror.orientation.IsUnit)
    (ho : result.orientation = mirror.orientation.mul ⟨0, 0, 1, 0⟩) (a b : ℝ) :
    result.getViewMatrix.mulVec (mirror.getMatrix.mulVec ⟨a, b, 0, 1⟩)
      = ⟨-(mirror.scale * a) - (cameraOffset mirror result).x,
          mirror.scale * b - (cameraOffset mirror result).y,
          -(cameraOffset mirror result).z, 1⟩ := by
  obtain ⟨pc, qc, proj⟩ := result
  obtain ⟨pm, q, s⟩ := mirror
  simp only at ho
  subst ho
  unfold Quat.IsUnit at hq
  simp only at hq
  ext
  · simp only [Camera.getViewMatrix, Transform.getMatrix, cameraOffset, mat4_cast, translate,
      scaleMat, Quat.mul, Quat.conjugate, Vec3.scale, Vec3.add, Vec3.sub, Vec3.neg, vec3, vec4,
      Mat4.mulVec, Mat4.mul, Mat4.one, Vec4.scale, Vec4.add]
    linear_combination (-2 * s * a + 4 * s * b * q.w * q.z) * hq
  · simp only [Camera.getViewMatrix, Transform.getMatrix, cameraOffset, mat4_cast, translate,
      scaleMat, Quat.mul, Quat.conjugate, Vec3.scale, Vec3.add, Vec3.sub, Vec3.neg, vec3, vec4,
      Mat4.mulVec, Mat4.mul, Mat4.one, Vec4.scale, Vec4.add]
    linear_combination (-4 * s * a * q.x * q.y + 4 * s * b * (q.x ^ 2 + q.z ^ 2)) * hq
  · simp only [Camera.getViewMatrix, Transform.getMatrix, cameraOffset, mat4_cast, translate,
      scaleMat, Quat.mul, Quat.conjugate, Vec3.scale, Vec3.add, Vec3.sub, Vec3.neg, vec3, vec4,
      Mat4.mulVec, Mat4.mul, Mat4.one, Vec4.scale, Vec4.add]
    linear_combination (4 * s * a * q.w * q.y - 4 * s * b * q.w * q.x) * hq
  · simp only [Camera.getViewMatrix, Transform.getMatrix, cameraOffset, mat4_cast, translate,
      scaleMat, Quat.mul, Quat.conjugate, Vec3.scale, Vec3.add, Vec3.sub, Vec3.neg, vec3, vec4,
      Mat4.mulVec, Mat4.mul, Mat4.one, Vec4.scale, Vec4.add]
    ring

/-- The depth of the camera behind the mirror, in camera axes, is minus the
component of the mirror-to-camera vector along the rotated out axis. -/
theorem cameraOffset_z (mirror : Transform) (result : Camera)
    (hq : mirror.orientation.IsUnit)
    (ho : result.orientation = mirror.orientation.mul ⟨0, 0, 1, 0⟩) :
    (cameraOffset mirror result).z
      = -dot (mirror.orientation.rotate Transform.vOut)
          (result.position.sub mirror.position) := by
  obtain ⟨pc, qc, proj⟩ := result
  obtain ⟨pm, q, s⟩ := mirror
  simp only at ho
  subst ho
  unfold Quat.IsUnit at hq
  simp only at hq
  simp only [cameraOffset, mat4_cast, Quat.mul, Quat.conjugate, Quat.rotate, Transform.vOut,
    dot, cross, Vec3.scale, Vec3.add, Vec3.sub, vec3, vec4, Mat4.mulVec]
  linear_combination (-2 * (pc.z - pm.z)) * hq

/-- The smaller of `-A - d` and `A - d`. -/
theorem min_neg_sub (A d : ℝ) : min (-A - d) (A - d) = -|A| - d := by
  rcases le_total 0 A with h | h
  · rw [abs_of_nonneg h, min_eq_left (by linarith)]
  · rw [abs_of_nonpos h, min_eq_right (by linarith)]
    ring

/-- The larger of `-A - d` and `A - d`. -/
theorem max_neg_sub (A d : ℝ) : max (-A - d) (A - d) = |A| - d := by
  rcases le_total 0 A with h | h
  · rw [abs_of_nonneg h, max_eq_right (by linarith)]
  · rw [abs_of_nonpos h, max_eq_left (by linarith)]

/-- The two diagonal corners of lines 61-68 in camera space, and the bounds
lines 70-76 take from them, in closed form. -/
theorem reflectFrustum_args (m_size : Vec2) (mirror : Transform) (result : Camera)
    (hq : mirror.orientation.IsUnit)
    (ho : result.orientation = mirror.orientation.mul ⟨0, 0, 1, 0⟩) :
    (Mirror.reflectFrustum m_size mirror result).args
      = ⟨-|mirror.scale * (m_size.x / 2)| - (cameraOffset mirror result).x,
          |mirror.scale * (m_size.x / 2)| - (cameraOffset mirror result).x,
          -|mirror.scale * (m_size.y / 2)| - (cameraOffset mirror result).y,
          |mirror.scale * (m_size.y / 2)| - (cameraOffset mirror result).y,
          (cameraOffset mirror result).z, 1000⟩ := by
  have htr : vec4 (((Transform.vUp.add Transform.vRight).mul (vec3of2 m_size 0)).divScalar 2) 1
      = ⟨m_size.x / 2, m_size.y / 2, 0, 1⟩ := by
    ext <;> simp [Transform.vUp, Transform.vRight]
  have hbl : vec4 (((Transform.vUp.add Transform.vRight).mul (vec3of2 m_size 0)).divScalar (-2)) 1
      = ⟨-(m_size.x / 2), -(m_size.y / 2), 0, 1⟩ := by
    ext <;> simp [Transform.vUp, Transform.vRight] <;> ring
  simp only [Mirror.reflectFrustum, htr, hbl, corner_camera_space mirror result hq ho, vmin,
    vmax, vec3]
  have e1 : ∀ t : ℝ, -(mirror.scale * -t) = mirror.scale * t := fun t => by ring
  have e2 : ∀ t : ℝ, mirror.scale * -t = -(mirror.scale * t) := fun t => by ring
  ext
  · simp only [e1, min_neg_sub]
  · simp only [e1, max_neg_sub]
  · simp only [e2]
    rw [min_comm, min_neg_sub]
  · simp only [e2]
    rw [max_comm, max_neg_sub]
  · simp
  · rfl

/-- On the mirror's normal line the cross product is zero and its normalisation
is undefined: lines 24-54 produce no camera. -/
theorem reflectPose_eq_none (m_camera : Camera) (mirror camera : Transform)
    (hx : cross (Mirror.worldNormal mirror) (camera.position.sub mirror.position) = ⟨0, 0, 0⟩) :
    Mirror.reflectPose m_camera mirror camera = none := by
  unfold Mirror.reflectPose
  generalize Mirror.worldNormal mirror = n at hx ⊢
  generalize camera.position.sub mirror.position = v at hx ⊢
  by_cases hv : dot v v = 0
  · have h1 : normalize v = none := by
      unfold normalize
      rw [if_pos hv]
    simp only [h1, Option.bind_eq_bind, Option.none_bind]
  · have h1 : normalize v = some (v.scale (1 / Real.sqrt (dot v v))) := by
      unfold normalize
      rw [if_neg hv]
    have h2 : normalize (cross n (v.scale (1 / Real.sqrt (dot v v)))) = none := by
      unfold normalize
      rw [cross_scale, hx, if_pos]
      simp [dot]
    simp only [h1, Option.bind_eq_bind, Option.some_bind, h2, Option.none_bind]

/-- Mirror::reflect is lines 24-54 followed by lines 61-76. -/
theorem reflect_of_pose (self : Mirror) (mirror camera : Transform) (p : ReflectPose)
    (hp : Mirror.reflectPose self.m_camera mirror camera = some p) :
    Mirror.reflect self mirror camera
      = (frustum (Mirror.reflectFrustum self.m_size mirror p.result).args).map
          p.result.setProjection := by
  simp only [Mirror.reflect, hp, Option.bind_eq_bind, Option.some_bind]
  cases frustum (Mirror.reflectFrustum self.m_size mirror p.result).args <;> rfl

/-- Without a pose there is no camera. -/
theorem reflect_eq_none_of_pose (self : Mirror) (mirror camera : Transform)
    (hp : Mirror.reflectPose self.m_camera mirror camera = none) :
    Mirror.reflect self mirror camera = none := by
  simp only [Mirror.reflect, hp, Option.bind_eq_bind, Option.none_bind]

/-- The mirror image of a vector has the length of the vector. -/
theorem dot_reflected_self (n v : Vec3) (hn : dot n n = 1) :
    dot (v.sub (n.scale (2 * dot v n))) (v.sub (n.scale (2 * dot v n))) = dot v v := by
  simp only [dot, Vec3.sub, Vec3.scale] at *
  linear_combination
    (4 * (v.x * n.x + v.y * n.y + v.z * n.z) ^ 2) * hn

/-- The mirror image of a vector has the opposite component along the normal. -/
theorem dot_reflected_normal (n v : Vec3) (hn : dot n n = 1) :
    dot (v.sub (n.scale (2 * dot v n))) n = -dot v n := by
  simp only [dot, Vec3.sub, Vec3.scale] at *
  linear_combination
    (-2 * (v.x * n.x + v.y * n.y + v.z * n.z)) * hn

/-- The mirror image of a vector has the same cross product with the normal. -/
theorem cross_reflected (n v : Vec3) :
    cross n (v.sub (n.scale (2 * dot v n))) = cross n v := by
  ext <;> simp only [dot, cross, Vec3.sub, Vec3.scale] <;> ring

/-- A defined normalisation is the vector divided by its non-zero length. -/
theorem normalize_eq_some {v r : Vec3} (h : normalize v = some r) :
    dot v v ≠ 0 ∧ r = v.scale (1 / Real.sqrt (dot v v)) := by
  unfold normalize at h
  by_cases hv : dot v v = 0
  · rw [if_pos hv] at h
    exact absurd h (by simp)
  · rw [if_neg hv] at h
    exact ⟨hv, (Option.some.inj h).symm⟩

/-- A normalised vector has squared length one. -/
theorem dot_normalize_self {v r : Vec3} (h : normalize v = some r) : dot r r = 1 := by
  obtain ⟨hv, rfl⟩ := normalize_eq_some h
  have hpos : 0 < dot v v := dot_self_pos (fun h0 => hv (by rw [h0]; simp [dot]))
  have hLL := Real.mul_self_sqrt hpos.le
  have hL : Real.sqrt (dot v v) ≠ 0 := (Real.sqrt_pos.mpr hpos).ne'
  rw [dot_scale_left, dot_scale_right]
  field_simp

/-- Cauchy-Schwarz for a normalised vector and a unit normal. -/
theorem dot_normalize_bounds {n v r : Vec3} (hn : dot n n = 1) (h : normalize v = some r) :
    -1 ≤ dot r n ∧ dot r n ≤ 1 := by
  have hr := dot_normalize_self h
  have hc := dot_cross_self r n
  have h0 : 0 ≤ dot (cross r n) (cross r n) := by
    simp only [dot]
    nlinarith [mul_self_nonneg (cross r n).x, mul_self_nonneg (cross r n).y,
      mul_self_nonneg (cross r n).z]
  rw [hc, hr, hn] at h0
  constructor <;> nlinarith

/-- Lines 24-54 of Mirror::reflect produce a camera as soon as the viewer is off
the mirror's normal line and the arc-cosine is taken inside its domain. -/
theorem reflectPose_defined (m_camera : Camera) (mirror camera : Transform)
    (hx : cross (Mirror.worldNormal mirror) (camera.position.sub mirror.position) ≠ ⟨0, 0, 0⟩)
    (hd : ∃ nView, normalize (camera.position.sub mirror.position) = some nView ∧
      -1 ≤ dot nView (Mirror.worldNormal mirror) ∧ dot nView (Mirror.worldNormal mirror) ≤ 1) :
    ∃ p, Mirror.reflectPose m_camera mirror camera = some p ∧
      p.result.orientation = mirror.orientation.mul ⟨0, 0, 1, 0⟩ := by
  obtain ⟨nView, hn, h1, h2⟩ := hd
  unfold Mirror.reflectPose
  generalize Mirror.worldNormal mirror = n at hx h1 h2 ⊢
  generalize camera.position.sub mirror.position = v at hx hn ⊢
  obtain ⟨hv, hr⟩ := normalize_eq_some hn
  have hvv : 0 < dot v v := dot_self_pos (fun h0 => hv (by rw [h0]; simp [dot]))
  have hL : 0 < Real.sqrt (dot v v) := Real.sqrt_pos.mpr hvv
  have hX : cross n nView ≠ ⟨0, 0, 0⟩ := by
    rw [hr, cross_scale]
    intro h
    apply hx
    have hx1 := congrArg Vec3.x h
    have hy1 := congrArg Vec3.y h
    have hz1 := congrArg Vec3.z h
    simp only [Vec3.scale] at hx1 hy1 hz1
    have hL1 : (1 / Real.sqrt (dot v v)) ≠ 0 := by positivity
    ext
    · exact (mul_eq_zero.mp hx1).resolve_right hL1
    · exact (mul_eq_zero.mp hy1).resolve_right hL1
    · exact (mul_eq_zero.mp hz1).resolve_right hL1
  have hnorm2 : normalize (cross n nView)
      = some ((cross n nView).scale (1 / Real.sqrt (dot (cross n nView) (cross n nView)))) := by
    unfold normalize
    rw [if_neg (dot_self_pos hX).ne']
  have hacos : acos (dot nView n) = some (Real.arccos (dot nView n)) := by
    unfold acos
    rw [if_pos ⟨h1, h2⟩]
  simp only [hn, hnorm2, hacos, Option.bind_eq_bind, Option.some_bind]
  refine ⟨_, rfl, ?_⟩
  simp only [quatOfEuler_pi, Camera.setOrientation, Camera.setPosition]

/-- The reflected view vector of a unit-scale mirror, normalised, has the
opposite cosine with the world normal. -/
theorem reflectPose_angle (m_camera : Camera) (mirror camera : Transform)
    (hq : mirror.orientation.IsUnit) (hs : mirror.scale = 1)
    (hx : cross (Mirror.worldNormal mirror) (camera.position.sub mirror.position) ≠ ⟨0, 0, 0⟩) :
    ∃ p r, Mirror.reflectPose m_camera mirror camera = some p ∧
      p.worldNormal = Mirror.worldNormal mirror ∧
      p.view = camera.position.sub mirror.position ∧
      normalize p.rView = some r ∧
      dot r p.worldNormal = -dot p.nView p.worldNormal ∧
      (-1 < dot p.nView p.worldNormal ∧ dot p.nView p.worldNormal < 1) ∧
      p.halfAngle = Real.arccos (dot p.nView p.worldNormal) ∧
      dot p.nView p.worldNormal * Real.sqrt (dot p.view p.view) = dot p.view p.worldNormal := by
  have hnn : dot (Mirror.worldNormal mirror) (Mirror.worldNormal mirror) = 1 := by
    rw [dot_worldNormal_self _ hq, hs]; norm_num
  obtain ⟨p, hp, hpn, hpv, hpnv, hpc, hph, hpr, -⟩ := reflectPose_eq m_camera mirror camera hq hs hx
  have hv0 : p.view ≠ ⟨0, 0, 0⟩ := by
    rw [hpv]
    intro h0
    apply hx
    rw [h0]
    ext <;> simp [cross]
  have hvv : 0 < dot p.view p.view := dot_self_pos hv0
  have hL : 0 < Real.sqrt (dot p.view p.view) := Real.sqrt_pos.mpr hvv
  have hlen : dot p.rView p.rView = dot p.view p.view := by
    rw [hpr]
    exact dot_reflected_self _ _ (by rw [hpn]; exact hnn)
  have hrn : dot p.rView p.worldNormal = -dot p.view p.worldNormal := by
    rw [hpr]
    exact dot_reflected_normal _ _ (by rw [hpn]; exact hnn)
  refine ⟨p, p.rView.scale (1 / Real.sqrt (dot p.rView p.rView)), hp, hpn, hpv, ?_, ?_, hpc, hph,
    ?_⟩
  · unfold normalize
    rw [if_neg (by rw [hlen]; exact hvv.ne')]
  · rw [hpnv, dot_scale_left, dot_scale_left, hlen, hrn]
    ring
  · rw [hpnv, dot_scale_left]
    field_simp

/-- The bounds of the four-corner reference, in closed form. -/
theorem fourCornerFrustum_args (m_size : Vec2) (mirror : Transform) (result : Camera)
    (hq : mirror.orientation.IsUnit)
    (ho : result.orientation = mirror.orientation.mul ⟨0, 0, 1, 0⟩) :
    fourCornerFrustum m_size mirror result
      = ⟨-|mirror.scale * (m_size.x / 2)| - (cameraOffset mirror result).x,
          |mirror.scale * (m_size.x / 2)| - (cameraOffset mirror result).x,
          -|mirror.scale * (m_size.y / 2)| - (cameraOffset mirror result).y,
          |mirror.scale * (m_size.y / 2)| - (cameraOffset mirror result).y,
          (cameraOffset mirror result).z, 1000⟩ := by
  simp only [fourCornerFrustum, corner_camera_space mirror result hq ho, vec3]
  have e1 : ∀ t : ℝ, -(mirror.scale * -t) = mirror.scale * t := fun t => by ring
  have e2 : ∀ t : ℝ, mirror.scale * -t = -(mirror.scale * t) := fun t => by ring
  ext
  · simp only [e1]
    rw [min_comm (mirror.scale * (m_size.x / 2) - _), min_self, min_neg_sub]
  · simp only [e1]
    rw [max_comm (mirror.scale * (m_size.x / 2) - _), max_self, max_neg_sub]
  · simp only [e2]
    rw [min_self, min_self, min_neg_sub]
  · simp only [e2]
    rw [max_self, max_self, max_neg_sub]
  · simp
  · rfl

/-- The identity quaternion is normalised. -/
theorem isUnit_identity : Quat.IsUnit ⟨1, 0, 0, 0⟩ := by
  norm_num [Quat.IsUnit]

/-- The world normal of a mirror with identity orientation. -/
theorem worldNormal_identity (pos : Vec3) (s : ℝ) :
    Mirror.worldNormal ⟨pos, ⟨1, 0, 0, 0⟩, s⟩ = ⟨0, 0, s⟩ := by
  ext <;> simp [Mirror.worldNormal, Transform.getMatrix, Transform.vOut]

/-- The length of the vector `(3, 0, 4)`. -/
theorem sqrt_twenty_five : Real.sqrt 25 = 5 := by
  rw [show (25 : ℝ) = 5 * 5 by norm_num]
  exact Real.sqrt_mul_self (by norm_num)

/-- The position lines 24-54 give the reflected camera of a unit-scale mirror,
for a viewer off the mirror's normal line. -/
theorem reflectPose_position (m_camera : Camera) (mirror camera : Transform)
    (hq : mirror.orientation.IsUnit) (hs : mirror.scale = 1)
    (hx : cross (Mirror.worldNormal mirror) (camera.position.sub mirror.position) ≠ ⟨0, 0, 0⟩) :
    ∃ p, Mirror.reflectPose m_camera mirror camera = some p ∧
      p.result.orientation = mirror.orientation.mul ⟨0, 0, 1, 0⟩ ∧
      p.result.position = mirror.position.add p.rView ∧
      p.result.position.sub mirror.position
        = (camera.position.sub mirror.position).sub ((Mirror.worldNormal mirror).scale
            (2 * dot (camera.position.sub mirror.position) (Mirror.worldNormal mirror))) ∧
      p.result.position
        = camera.position.sub ((Mirror.worldNormal mirror).scale
            (2 * dot (camera.position.sub mirror.position) (Mirror.worldNormal mirror))) := by
  obtain ⟨p, hp, hpn, hpv, -, -, -, hpr, hres⟩ := reflectPose_eq m_camera mirror camera hq hs hx
  rw [hpn, hpv] at hpr
  refine ⟨p, hp, ?_, ?_, ?_, ?_⟩
  · rw [hres]
  · rw [hres]
  · rw [hres, hpr]
    generalize dot (camera.position.sub mirror.position) (Mirror.worldNormal mirror) = d
    ext <;> simp only [Vec3.add, Vec3.sub, Vec3.scale] <;> ring
  · rw [hres, hpr]
    generalize dot (camera.position.sub mirror.position) (Mirror.worldNormal mirror) = d
    ext <;> simp only [Vec3.add, Vec3.sub, Vec3.scale] <;> ring

/-- A camera returned by Mirror::reflect has the position and orientation set
at lines 53 and 54. -/
theorem reflect_result_of_pose (self : Mirror) (mirror camera : Transform) (p : ReflectPose)
    (hp : Mirror.reflectPose self.m_camera mirror camera = some p) (cam : Camera)
    (hc : Mirror.reflect self mirror camera = some cam) :
    cam.position = p.result.position ∧ cam.orientation = p.result.orientation := by
  rw [reflect_of_pose self mirror camera p hp] at hc
  rcases hf : frustum (Mirror.reflectFrustum self.m_size mirror p.result).args with _ | m
  · rw [hf] at hc
    exact absurd hc (by simp)
  · rw [hf] at hc
    have h := Option.some.inj hc
    rw [← h]
    exact ⟨rfl, rfl⟩

/-- The near value of lines 70-76 for a camera placed at the mirror image of
the viewer behind a unit-scale mirror. -/
theorem near_eq_of_pose (m_size : Vec2) (mirror camera : Transform) (result : Camera)
    (hq : mirror.orientation.IsUnit) (hs : mirror.scale = 1)
    (ho : result.orientation = mirror.orientation.mul ⟨0, 0, 1, 0⟩)
    (hsub : result.position.sub mirror.position
      = (camera.position.sub mirror.position).sub ((Mirror.worldNormal mirror).scale
          (2 * dot (camera.position.sub mirror.position) (Mirror.worldNormal mirror)))) :
    (Mirror.reflectFrustum m_size mirror result).args.near
      = dot (camera.position.sub mirror.position) (Mirror.worldNormal mirror) := by
  have hnn : dot (Mirror.worldNormal mirror) (Mirror.worldNormal mirror) = 1 := by
    rw [dot_worldNormal_self _ hq, hs]; norm_num
  have hrot : mirror.orientation.rotate Transform.vOut = Mirror.worldNormal mirror := by
    rw [worldNormal_eq_rotate, hs]
    ext <;> simp only [Vec3.scale, mul_one]
  rw [reflectFrustum_args _ _ _ hq ho]
  simp only
  rw [cameraOffset_z _ _ hq ho, hrot, hsub, dot_comm, dot_reflected_normal _ _ hnn]
  ring

/-- Mirror::reflect returns a camera for a unit-scale mirror of non-zero width
and height and a viewer off the mirror's normal line whose signed distance from
the mirror plane is not the far plane constant. -/
theorem reflect_defined (self : Mirror) (mirror camera : Transform)
    (hq : mirror.orientation.IsUnit) (hs : mirror.scale = 1)
    (hx : cross (Mirror.worldNormal mirror) (camera.position.sub mirror.position) ≠ ⟨0, 0, 0⟩)
    (hw : self.m_size.x ≠ 0) (hh : self.m_size.y ≠ 0)
    (hfar : dot (camera.position.sub mirror.position) (Mirror.worldNormal mirror) ≠ 1000) :
    ∃ p cam, Mirror.reflectPose self.m_camera mirror camera = some p ∧
      Mirror.reflect self mirror camera = some cam ∧
      cam.position = p.result.position ∧ cam.orientation = p.result.orientation := by
  obtain ⟨p, hp, ho, -, hsub, -⟩ := reflectPose_position self.m_camera mirror camera hq hs hx
  have hnear := near_eq_of_pose self.m_size mirror camera p.result hq hs ho hsub
  have hargs := reflectFrustum_args self.m_size mirror p.result hq ho
  have hA : 0 < |mirror.scale * (self.m_size.x / 2)| :=
    abs_pos.mpr (mul_ne_zero (by rw [hs]; norm_num) (div_ne_zero hw two_ne_zero))
  have hB : 0 < |mirror.scale * (self.m_size.y / 2)| :=
    abs_pos.mpr (mul_ne_zero (by rw [hs]; norm_num) (div_ne_zero hh two_ne_zero))
  have hf : ∃ m, frustum (Mirror.reflectFrustum self.m_size mirror p.result).args = some m := by
    unfold frustum
    rw [if_neg]
    · exact ⟨_, rfl⟩
    · rw [hnear]
      rw [hargs]
      simp only
      intro h
      rcases h with h | h | h
      · linarith
      · linarith
      · exact hfar (by linarith)
  obtain ⟨m, hm⟩ := hf
  refine ⟨p, p.result.setProjection m, hp, ?_, rfl, rfl⟩
  rw [reflect_of_pose self mirror camera p hp, hm]
  rfl

/-- The world normal of the mirror at the origin is `+Z`. -/
theorem worldNormal_mirrorAtOrigin : Mirror.worldNormal mirrorAtOrigin = ⟨0, 0, 1⟩ :=
  worldNormal_identity _ _

/-- The viewer at `(3, 0, 4)` is off the normal line of the mirror at the origin. -/
theorem cross_viewerOffAxis :
    cross (Mirror.worldNormal mirrorAtOrigin)
      (viewerOffAxis.position.sub mirrorAtOrigin.position) ≠ ⟨0, 0, 0⟩ := by
  rw [worldNormal_mirrorAtOrigin]
  intro h
  have hy := congrArg Vec3.y h
  norm_num [cross, viewerOffAxis, mirrorAtOrigin] at hy

/-- The viewer at `(3, 0, 4)` is at distance 4 in front of the mirror at the origin. -/
theorem dot_viewerOffAxis :
    dot (viewerOffAxis.position.sub mirrorAtOrigin.position)
      (Mirror.worldNormal mirrorAtOrigin) = 4 := by
  rw [worldNormal_mirrorAtOrigin]
  norm_num [dot, viewerOffAxis, mirrorAtOrigin]

/-- The quaternion of the tilted mirror is normalised. -/
theorem isUnit_mirrorTilted : mirrorTilted.orientation.IsUnit := by
  norm_num [Quat.IsUnit, mirrorTilted]

/-- The world normal of the tilted mirror. -/
theorem worldNormal_mirrorTilted :
    Mirror.worldNormal mirrorTilted = ⟨0, -(24 / 25), -(7 / 25)⟩ := by
  ext <;> norm_num [Mirror.worldNormal, Transform.getMatrix, Transform.vOut, mirrorTilted]

/-- The viewer at `(2, 1, 3)` is off the normal line of the tilted mirror. -/
theorem cross_viewerByTilted :
    cross (Mirror.worldNormal mirrorTilted)
      (viewerByTilted.position.sub mirrorTilted.position) ≠ ⟨0, 0, 0⟩ := by
  rw [worldNormal_mirrorTilted]
  intro h
  have hz := congrArg Vec3.z h
  norm_num [cross, viewerByTilted, mirrorTilted] at hz

/-- The viewer at `(2, 1, 3)` is at distance `24 / 25` in front of the tilted
mirror. -/
theorem dot_viewerByTilted :
    dot (viewerByTilted.position.sub mirrorTilted.position)
      (Mirror.worldNormal mirrorTilted) = 24 / 25 := by
  rw [worldNormal_mirrorTilted]
  norm_num [dot, viewerByTilted, mirrorTilted]

/-- An arc-cosine taken outside `[-1, 1]` at line 38 leaves lines 24-54 without
a camera. -/
theorem reflectPose_eq_none_of_acos (m_camera : Camera) (mirror camera : Transform)
    (nView : Vec3) (hn : normalize (camera.position.sub mirror.position) = some nView)
    (hd : 1 < dot nView (Mirror.worldNormal mirror)) :
    Mirror.reflectPose m_camera mirror camera = none := by
  unfold Mirror.reflectPose
  have hacos : acos (dot nView (Mirror.worldNormal mirror)) = none := by
    unfold acos
    rw [if_neg (fun h => absurd h.2 (not_le.mpr hd))]
  simp only [hn, Option.bind_eq_bind, Option.some_bind, hacos, Option.none_bind]
  cases normalize (cross (Mirror.worldNormal mirror) nView) <;> rfl

/-- The viewer at `(3, 0, 4)` is at distance 5 from the origin. -/
theorem normalize_viewerOffAxis (mirror : Transform) (h : mirror.position = ⟨0, 0, 0⟩) :
    normalize (viewerOffAxis.position.sub mirror.position)
      = some ⟨3 / 5, 0, 4 / 5⟩ := by
  have hv : viewerOffAxis.position.sub mirror.position = ⟨3, 0, 4⟩ := by
    rw [h]
    ext <;> norm_num [viewerOffAxis]
  have hd : dot (⟨3, 0, 4⟩ : Vec3) ⟨3, 0, 4⟩ = 25 := by norm_num [dot]
  rw [hv]
  unfold normalize
  rw [hd, if_neg (by norm_num), sqrt_twenty_five]
  congr 1
  ext <;> norm_num

end Algebra

/-! ## The reflected camera's position -/

/-- C1: for a unit-scale mirror and a viewer strictly on the reflective side of
the mirror plane and off the mirror's normal line, Mirror::reflect sets the
reflected camera's position to `mirrorPos + rView`, which equals
`viewerPos - 2 * dot(viewerPos - mirrorPos, n) * n`: it lies on the opposite side
of the mirror plane, at the viewer's distance from it. -/
theorem reflect_mirror_symmetry (self : Mirror) (mirror camera : Transform)
    (hq : mirror.orientation.IsUnit) (hs : mirror.scale = 1)
    (hside : 0 < dot (camera.position.sub mirror.position) (Mirror.worldNormal mirror))
    (hx : cross (Mirror.worldNormal mirror) (camera.position.sub mirror.position) ≠ ⟨0, 0, 0⟩) :
    ∃ p, Mirror.reflectPose self.m_camera mirror camera = some p ∧
      p.result.position = mirror.position.add p.rView ∧
      p.result.position
        = camera.position.sub ((Mirror.worldNormal mirror).scale
            (2 * dot (camera.position.sub mirror.position) (Mirror.worldNormal mirror))) ∧
      dot (p.result.position.sub mirror.position) (Mirror.worldNormal mirror)
        = -dot (camera.position.sub mirror.position) (Mirror.worldNormal mirror) ∧
      dot (p.result.position.sub mirror.position) (Mirror.worldNormal mirror) < 0 ∧
      ∀ cam, Mirror.reflect self mirror camera = some cam →
        cam.position = p.result.position := by
  have hnn : dot (Mirror.worldNormal mirror) (Mirror.worldNormal mirror) = 1 := by
    rw [dot_worldNormal_self _ hq, hs]; norm_num
  obtain ⟨p, hp, -, hadd, hsub, hpos⟩ :=
    reflectPose_position self.m_camera mirror camera hq hs hx
  have hdot : dot (p.result.position.sub mirror.position) (Mirror.worldNormal mirror)
      = -dot (camera.position.sub mirror.position) (Mirror.worldNormal mirror) := by
    rw [hsub]
    exact dot_reflected_normal _ _ hnn
  refine ⟨p, hp, hadd, hpos, hdot, ?_, ?_⟩
  · rw [hdot]
    linarith
  · intro cam hc
    exact (reflect_result_of_pose self mirror camera p hp cam hc).1

/-- The mirror symmetry law at the mirror at the origin and the viewer at
`(3, 0, 4)`: the reflected camera is at `(3, 0, -4)`. -/
theorem reflect_mirror_symmetry_witness :
    ∃ p cam, Mirror.reflectPose squareMirror.m_camera mirrorAtOrigin viewerOffAxis = some p ∧
      p.result.position = ⟨3, 0, -4⟩ ∧
      Mirror.reflect squareMirror mirrorAtOrigin viewerOffAxis = some cam ∧
      cam.position = ⟨3, 0, -4⟩ := by
  obtain ⟨p, hp, -, hpos, -, -, hcam⟩ :=
    reflect_mirror_symmetry squareMirror mirrorAtOrigin viewerOffAxis isUnit_identity rfl
      (by rw [dot_viewerOffAxis]; norm_num) cross_viewerOffAxis
  obtain ⟨p2, cam, hp2, hc, -, -⟩ :=
    reflect_defined squareMirror mirrorAtOrigin viewerOffAxis isUnit_identity rfl
      cross_viewerOffAxis (by norm_num [squareMirror]) (by norm_num [squareMirror])
      (by rw [dot_viewerOffAxis]; norm_num)
  have h3 : p.result.position = ⟨3, 0, -4⟩ := by
    rw [hpos, dot_viewerOffAxis, worldNormal_mirrorAtOrigin]
    ext <;> norm_num [viewerOffAxis]
  exact ⟨p, cam, hp, h3, hc, by rw [hcam cam hc, h3]⟩

/-- C4: for a unit-scale mirror and a viewer off the mirror's normal line,
reflecting the viewer and then reflecting a viewer placed at the reflected
camera's position, about the same mirror, gives a camera at the original
viewer's position. -/
theorem reflect_round_trip (self : Mirror) (mirror camera : Transform)
    (hq : mirror.orientation.IsUnit) (hs : mirror.scale = 1)
    (hx : cross (Mirror.worldNormal mirror) (camera.position.sub mirror.position) ≠ ⟨0, 0, 0⟩) :
    ∃ p1, Mirror.reflectPose self.m_camera mirror camera = some p1 ∧
      (∀ (m_camera2 : Camera) (camera2 : Transform), camera2.position = p1.result.position →
        ∃ p2, Mirror.reflectPose m_camera2 mirror camera2 = some p2 ∧
          p2.result.position = camera.position) ∧
      ∀ (cam1 cam2 : Camera) (camera2 : Transform),
        Mirror.reflect self mirror camera = some cam1 →
        camera2.position = cam1.position →
        Mirror.reflect { self with m_camera := cam1 } mirror camera2 = some cam2 →
        cam2.position = camera.position := by
  have hnn : dot (Mirror.worldNormal mirror) (Mirror.worldNormal mirror) = 1 := by
    rw [dot_worldNormal_self _ hq, hs]; norm_num
  obtain ⟨p1, hp1, -, -, hsub1, -⟩ :=
    reflectPose_position self.m_camera mirror camera hq hs hx
  have key : ∀ (m_camera2 : Camera) (camera2 : Transform),
      camera2.position = p1.result.position →
      ∃ p2, Mirror.reflectPose m_camera2 mirror camera2 = some p2 ∧
        p2.result.position = camera.position := ?_
  · refine ⟨p1, hp1, key, ?_⟩
    intro cam1 cam2 camera2 h1 hc2 h2
    have hpos1 := (reflect_result_of_pose self mirror camera p1 hp1 cam1 h1).1
    obtain ⟨p2, hp2, hpos2⟩ := key cam1 camera2 (by rw [hc2, hpos1])
    rw [(reflect_result_of_pose { self with m_camera := cam1 } mirror camera2 p2 hp2 cam2 h2).1,
      hpos2]
  intro m_camera2 camera2 hc2
  have hx2 : cross (Mirror.worldNormal mirror) (camera2.position.sub mirror.position)
      ≠ ⟨0, 0, 0⟩ := by
    rw [hc2, hsub1, cross_reflected]
    exact hx
  obtain ⟨p2, hp2, -, -, -, hpos2⟩ :=
    reflectPose_position m_camera2 mirror camera2 hq hs hx2
  refine ⟨p2, hp2, ?_⟩
  rw [hpos2, hc2, hsub1, dot_reflected_normal _ _ hnn]
  have h3 : p1.result.position = mirror.position.add (p1.result.position.sub mirror.position) := by
    ext <;> simp only [Vec3.add, Vec3.sub] <;> ring
  rw [h3, hsub1]
  generalize dot (camera.position.sub mirror.position) (Mirror.worldNormal mirror) = d
  ext <;> simp only [Vec3.add, Vec3.sub, Vec3.scale] <;> ring

/-- The round trip at the mirror at the origin and the viewer at `(3, 0, 4)`. -/
theorem reflect_round_trip_witness :
    ∃ p1, Mirror.reflectPose squareMirror.m_camera mirrorAtOrigin viewerOffAxis = some p1 ∧
      ∀ (m_camera2 : Camera) (camera2 : Transform), camera2.position = p1.result.position →
        ∃ p2, Mirror.reflectPose m_camera2 mirrorAtOrigin camera2 = some p2 ∧
          p2.result.position = ⟨3, 0, 4⟩ := by
  obtain ⟨p1, hp1, h, -⟩ :=
    reflect_round_trip squareMirror mirrorAtOrigin viewerOffAxis isUnit_identity rfl
      cross_viewerOffAxis
  exact ⟨p1, hp1, h⟩


/-- C2: at the scenario's input (mirror at the origin, identity orientation,
size 2 × 2, viewer at `(0, 0, 5)`) the viewer is on the mirror's normal line:
the cross product of line 37 is the zero vector, its normalisation is
undefined, and Mirror::reflect yields no position, where the scenario expects
`(0, 0, -5)`, the mirror image `viewerPos - 2 * dot(viewerPos - mirrorPos, n) * n`
of the viewer.  The orientation assigned at line 53 does turn the camera's
forward direction `-vOut` into `+Z`. -/
theorem reflect_scenario_on_axis :
    cross (Mirror.worldNormal mirrorAtOrigin)
        (viewerOnAxis.position.sub mirrorAtOrigin.position) = ⟨0, 0, 0⟩ ∧
      Mirror.reflectPose squareMirror.m_camera mirrorAtOrigin viewerOnAxis = none ∧
      Mirror.reflect squareMirror mirrorAtOrigin viewerOnAxis = none ∧
      viewerOnAxis.position.sub ((Mirror.worldNormal mirrorAtOrigin).scale
          (2 * dot (viewerOnAxis.position.sub mirrorAtOrigin.position)
            (Mirror.worldNormal mirrorAtOrigin))) = ⟨0, 0, -5⟩ ∧
      (mirrorAtOrigin.orientation.mul (quatOfEuler ⟨0, Real.pi, 0⟩)).rotate Transform.vOut.neg
        = ⟨0, 0, 1⟩ := by
  have hx : cross (Mirror.worldNormal mirrorAtOrigin)
      (viewerOnAxis.position.sub mirrorAtOrigin.position) = ⟨0, 0, 0⟩ := by
    rw [worldNormal_mirrorAtOrigin]
    ext <;> norm_num [cross, viewerOnAxis, mirrorAtOrigin]
  have hp := reflectPose_eq_none squareMirror.m_camera mirrorAtOrigin viewerOnAxis hx
  refine ⟨hx, hp, reflect_eq_none_of_pose _ _ _ hp, ?_, ?_⟩
  · rw [worldNormal_mirrorAtOrigin]
    ext <;> norm_num [dot, viewerOnAxis, mirrorAtOrigin]
  · rw [quatOfEuler_pi]
    ext <;> norm_num [mirrorAtOrigin, Transform.vOut, cross]

/-! ## The degenerate axis -/

/-- When the viewer lies on the mirror's normal line, every normalised view
vector has a zero cross product with the world normal, line 37 normalises that
zero vector, and Mirror::reflect produces no camera position and no
projection. -/
theorem reflect_undefined_on_normal_line (self : Mirror) (mirror camera : Transform)
    (hx : cross (Mirror.worldNormal mirror) (camera.position.sub mirror.position) = ⟨0, 0, 0⟩) :
    (∀ nView, normalize (camera.position.sub mirror.position) = some nView →
        cross (Mirror.worldNormal mirror) nView = ⟨0, 0, 0⟩ ∧
        normalize (cross (Mirror.worldNormal mirror) nView) = none) ∧
      Mirror.reflectPose self.m_camera mirror camera = none ∧
      Mirror.reflect self mirror camera = none := by
  have hp := reflectPose_eq_none self.m_camera mirror camera hx
  refine ⟨?_, hp, reflect_eq_none_of_pose _ _ _ hp⟩
  intro nView hn
  obtain ⟨-, rfl⟩ := normalize_eq_some hn
  have h0 : cross (Mirror.worldNormal mirror)
      ((camera.position.sub mirror.position).scale
        (1 / Real.sqrt (dot (camera.position.sub mirror.position)
          (camera.position.sub mirror.position)))) = ⟨0, 0, 0⟩ := by
    rw [cross_scale, hx]
    ext <;> simp
  refine ⟨h0, ?_⟩
  rw [h0]
  unfold normalize
  rw [if_pos (by simp [dot])]

/-- C3: Mirror::reflect has no fallback rotation axis.  With the mirror at
`(1, 2, 3)` and the viewer at `(1, 2, 7)`, on the mirror's normal line, the
normalised view vector is `(0, 0, 1)`, its cross product with the world normal
is the zero vector, line 37 normalises that zero vector, whose normalisation is
undefined, and Mirror::reflect produces no camera position and no projection,
where the claim asks for well defined ones. -/
theorem reflect_on_normal_line_example :
    cross (Mirror.worldNormal mirrorShifted)
        (viewerOnShiftedAxis.position.sub mirrorShifted.position) = ⟨0, 0, 0⟩ ∧
      normalize (viewerOnShiftedAxis.position.sub mirrorShifted.position) = some ⟨0, 0, 1⟩ ∧
      cross (Mirror.worldNormal mirrorShifted) ⟨0, 0, 1⟩ = ⟨0, 0, 0⟩ ∧
      normalize (cross (Mirror.worldNormal mirrorShifted) ⟨0, 0, 1⟩) = none ∧
      Mirror.reflectPose squareMirror.m_camera mirrorShifted viewerOnShiftedAxis = none ∧
      Mirror.reflect squareMirror mirrorShifted viewerOnShiftedAxis = none := by
  have hx : cross (Mirror.worldNormal mirrorShifted)
      (viewerOnShiftedAxis.position.sub mirrorShifted.position) = ⟨0, 0, 0⟩ := by
    rw [show mirrorShifted = ⟨⟨1, 2, 3⟩, ⟨1, 0, 0, 0⟩, 1⟩ from rfl, worldNormal_identity]
    ext <;> norm_num [cross, viewerOnShiftedAxis]
  have hn : normalize (viewerOnShiftedAxis.position.sub mirrorShifted.position)
      = some ⟨0, 0, 1⟩ := by
    have hv : viewerOnShiftedAxis.position.sub mirrorShifted.position = ⟨0, 0, 4⟩ := by
      ext <;> norm_num [viewerOnShiftedAxis, mirrorShifted]
    have hd : dot (⟨0, 0, 4⟩ : Vec3) ⟨0, 0, 4⟩ = 16 := by norm_num [dot]
    have h16 : Real.sqrt 16 = 4 := by
      rw [show (16 : ℝ) = 4 * 4 by norm_num]
      exact Real.sqrt_mul_self (by norm_num)
    rw [hv]
    unfold normalize
    rw [hd, if_neg (by norm_num), h16]
    congr 1
    ext <;> norm_num
  obtain ⟨hall, hp, hr⟩ :=
    reflect_undefined_on_normal_line squareMirror mirrorShifted viewerOnShiftedAxis hx
  exact ⟨hx, hn, (hall _ hn).1, (hall _ hn).2, hp, hr⟩

/-! ## The reflected angle -/

/-- C5, as the claim states it, fails: for the mirror at the origin and the
viewer at `(3, 0, 4)` the arc-cosine of the reflected view vector with the
world normal differs from that of the view vector. -/
theorem reflect_angle_example :
    ∃ p r, Mirror.reflectPose squareMirror.m_camera mirrorAtOrigin viewerOffAxis = some p ∧
      normalize p.rView = some r ∧
      acos (dot r p.worldNormal) ≠ acos (dot p.nView p.worldNormal) := by
  obtain ⟨p, r, hp, hpn, hpv, hr, hrn, ⟨hc1, hc2⟩, -, hcl⟩ :=
    reflectPose_angle squareMirror.m_camera mirrorAtOrigin viewerOffAxis isUnit_identity rfl
      cross_viewerOffAxis
  refine ⟨p, r, hp, hr, ?_⟩
  rw [hrn]
  have h4 : dot p.view p.worldNormal = 4 := by
    rw [hpn, hpv]
    exact dot_viewerOffAxis
  rw [h4] at hcl
  have hc0 : dot p.nView p.worldNormal ≠ 0 := by
    intro h0
    rw [h0] at hcl
    norm_num at hcl
  generalize dot p.nView p.worldNormal = c at hc1 hc2 hc0
  unfold acos
  rw [if_pos ⟨by linarith, by linarith⟩, if_pos ⟨hc1.le, hc2.le⟩, Real.arccos_neg]
  intro h
  have h2 : Real.arccos c = Real.pi / 2 := by
    have := Option.some.inj h
    linarith
  exact hc0 (Real.arccos_eq_pi_div_two.mp h2)

/-- C5, amended: for a unit-scale mirror and a viewer off the mirror's normal
line, the angle between the reflected view vector and the world normal is `π`
minus the angle between the view vector and the world normal (the half angle of
line 38); the two angles are equal only for a viewer in the mirror plane. -/
theorem reflect_angle_supplementary (self : Mirror) (mirror camera : Transform)
    (hq : mirror.orientation.IsUnit) (hs : mirror.scale = 1)
    (hx : cross (Mirror.worldNormal mirror) (camera.position.sub mirror.position) ≠ ⟨0, 0, 0⟩) :
    ∃ p r, Mirror.reflectPose self.m_camera mirror camera = some p ∧
      normalize p.rView = some r ∧
      acos (dot p.nView p.worldNormal) = some p.halfAngle ∧
      acos (dot r p.worldNormal) = some (Real.pi - p.halfAngle) ∧
      (acos (dot r p.worldNormal) = acos (dot p.nView p.worldNormal) ↔
        dot (camera.position.sub mirror.position) (Mirror.worldNormal mirror) = 0) := by
  obtain ⟨p, r, hp, hpn, hpv, hr, hrn, ⟨hc1, hc2⟩, hh, hcl⟩ :=
    reflectPose_angle self.m_camera mirror camera hq hs hx
  have hv0 : p.view ≠ ⟨0, 0, 0⟩ := by
    rw [hpv]
    intro h0
    apply hx
    rw [h0]
    ext <;> simp [cross]
  have hL : 0 < Real.sqrt (dot p.view p.view) := Real.sqrt_pos.mpr (dot_self_pos hv0)
  have hcl2 : dot p.nView p.worldNormal * Real.sqrt (dot p.view p.view)
      = dot (camera.position.sub mirror.position) (Mirror.worldNormal mirror) := by
    rw [hcl, hpn, hpv]
  have e1 : acos (dot p.nView p.worldNormal) = some (Real.arccos (dot p.nView p.worldNormal)) := by
    unfold acos
    rw [if_pos ⟨hc1.le, hc2.le⟩]
  have e2 : acos (dot r p.worldNormal)
      = some (Real.pi - Real.arccos (dot p.nView p.worldNormal)) := by
    rw [hrn]
    unfold acos
    rw [if_pos ⟨by linarith, by linarith⟩, Real.arccos_neg]
  refine ⟨p, r, hp, hr, by rw [hh]; exact e1, by rw [hh]; exact e2, ?_⟩
  rw [e1, e2, ← hcl2]
  constructor
  · intro h
    have h2 : Real.arccos (dot p.nView p.worldNormal) = Real.pi / 2 := by
      have := Option.some.inj h
      linarith
    rw [Real.arccos_eq_pi_div_two.mp h2]
    ring
  · intro h
    have h0 : dot p.nView p.worldNormal = 0 := by
      rcases mul_eq_zero.mp h with h1 | h1
      · exact h1
      · exact absurd h1 hL.ne'
    rw [h0, Real.arccos_zero]
    congr 1
    ring

/-- The amended C5 at the mirror at the origin and the viewer at `(3, 0, 4)`. -/
theorem reflect_angle_supplementary_witness :
    ∃ p r, Mirror.reflectPose squareMirror.m_camera mirrorAtOrigin viewerOffAxis = some p ∧
      normalize p.rView = some r ∧
      acos (dot p.nView p.worldNormal) = some p.halfAngle ∧
      acos (dot r p.worldNormal) = some (Real.pi - p.halfAngle) := by
  obtain ⟨p, r, hp, hr, h1, h2, -⟩ :=
    reflect_angle_supplementary squareMirror mirrorAtOrigin viewerOffAxis isUnit_identity rfl
      cross_viewerOffAxis
  exact ⟨p, r, hp, hr, h1, h2⟩

/-! ## The world normal -/

/-- At unit scale, for a normalised orientation, the world normal of line 26 is
the out axis rotated by the orientation alone: it does not depend on the
mirror's position, has unit length, and its dot product with every normalised
view vector lies in `[-1, 1]`. -/
theorem worldNormal_unit_scale (mirror : Transform) (hq : mirror.orientation.IsUnit)
    (hs : mirror.scale = 1) :
    Mirror.worldNormal mirror = mirror.orientation.rotate Transform.vOut ∧
      (∀ pos, Mirror.worldNormal { mirror with position := pos } = Mirror.worldNormal mirror) ∧
      dot (Mirror.worldNormal mirror) (Mirror.worldNormal mirror) = 1 ∧
      ∀ view nView, normalize view = some nView →
        -1 ≤ dot nView (Mirror.worldNormal mirror) ∧
          dot nView (Mirror.worldNormal mirror) ≤ 1 := by
  have hnn : dot (Mirror.worldNormal mirror) (Mirror.worldNormal mirror) = 1 := by
    rw [dot_worldNormal_self mirror hq, hs]
    norm_num
  refine ⟨?_, ?_, hnn, ?_⟩
  · rw [worldNormal_eq_rotate, hs]
    ext <;> simp only [Vec3.scale, mul_one]
  · intro pos
    rw [worldNormal_eq_rotate, worldNormal_eq_rotate]
  · intro view nView hn
    exact dot_normalize_bounds hnn hn

/-- C9: the world normal of line 26 is not independent of the mirror's scale.
The mirror at the origin with identity orientation and scale 2 has a normalised
orientation and the rotated out axis is `(0, 0, 1)`, yet the code's world normal
is `(0, 0, 2)`: it is not the rotated out axis, differs from that of the same
mirror at unit scale, is not of unit length, and its dot product with the
normalised view vector of the viewer at `(3, 0, 4)` is `8 / 5`, outside
`[-1, 1]`. -/
theorem worldNormal_scale_example :
    mirrorScaledTwice.orientation.IsUnit ∧
      mirrorScaledTwice.orientation.rotate Transform.vOut = ⟨0, 0, 1⟩ ∧
      Mirror.worldNormal mirrorScaledTwice = ⟨0, 0, 2⟩ ∧
      Mirror.worldNormal mirrorScaledTwice
        ≠ mirrorScaledTwice.orientation.rotate Transform.vOut ∧
      Mirror.worldNormal mirrorScaledTwice
        ≠ Mirror.worldNormal { mirrorScaledTwice with scale := 1 } ∧
      dot (Mirror.worldNormal mirrorScaledTwice) (Mirror.worldNormal mirrorScaledTwice) ≠ 1 ∧
      normalize (viewerOffAxis.position.sub mirrorScaledTwice.position)
        = some ⟨3 / 5, 0, 4 / 5⟩ ∧
      dot ⟨3 / 5, 0, 4 / 5⟩ (Mirror.worldNormal mirrorScaledTwice) = 8 / 5 := by
  have h2 : Mirror.worldNormal mirrorScaledTwice = ⟨0, 0, 2⟩ := worldNormal_identity _ _
  have h1 : Mirror.worldNormal { mirrorScaledTwice with scale := 1 } = ⟨0, 0, 1⟩ :=
    worldNormal_identity _ _
  have hr : mirrorScaledTwice.orientation.rotate Transform.vOut = ⟨0, 0, 1⟩ := by
    ext <;> norm_num [mirrorScaledTwice, Transform.vOut, cross]
  refine ⟨isUnit_identity, hr, h2, ?_, ?_, ?_, normalize_viewerOffAxis mirrorScaledTwice rfl, ?_⟩
  · rw [h2, hr]
    intro h
    have hz := congrArg Vec3.z h
    norm_num at hz
  · rw [h2, h1]
    intro h
    have hz := congrArg Vec3.z h
    norm_num at hz
  · rw [h2]
    norm_num [dot]
  · rw [h2]
    norm_num [dot]

/-! ## The frustum -/

/-- Where the arc-cosine of line 38 is taken inside its domain, for a mirror
size with non-zero width and height, a mirror transform with normalised
orientation and non-zero scale, and a viewer off the mirror's normal line,
Mirror::reflect passes bounds with `left < right` and `bottom < top`, where
left, right, bottom, top are `mins.x`, `maxs.x`, `mins.y`, `maxs.y`. -/
theorem frustum_bounds_ordered (self : Mirror) (mirror camera : Transform)
    (hw : self.m_size.x ≠ 0) (hh : self.m_size.y ≠ 0)
    (hq : mirror.orientation.IsUnit) (hs : mirror.scale ≠ 0)
    (hx : cross (Mirror.worldNormal mirror) (camera.position.sub mirror.position) ≠ ⟨0, 0, 0⟩)
    (hd : ∃ nView, normalize (camera.position.sub mirror.position) = some nView ∧
      -1 ≤ dot nView (Mirror.worldNormal mirror) ∧ dot nView (Mirror.worldNormal mirror) ≤ 1) :
    ∃ p, Mirror.reflectPose self.m_camera mirror camera = some p ∧
      Mirror.reflect self mirror camera
        = (frustum (Mirror.reflectFrustum self.m_size mirror p.result).args).map
            p.result.setProjection ∧
      (Mirror.reflectFrustum self.m_size mirror p.result).args.left
        < (Mirror.reflectFrustum self.m_size mirror p.result).args.right ∧
      (Mirror.reflectFrustum self.m_size mirror p.result).args.bottom
        < (Mirror.reflectFrustum self.m_size mirror p.result).args.top ∧
      (Mirror.reflectFrustum self.m_size mirror p.result).args.left
        = (Mirror.reflectFrustum self.m_size mirror p.result).mins.x ∧
      (Mirror.reflectFrustum self.m_size mirror p.result).args.right
        = (Mirror.reflectFrustum self.m_size mirror p.result).maxs.x ∧
      (Mirror.reflectFrustum self.m_size mirror p.result).args.bottom
        = (Mirror.reflectFrustum self.m_size mirror p.result).mins.y ∧
      (Mirror.reflectFrustum self.m_size mirror p.result).args.top
        = (Mirror.reflectFrustum self.m_size mirror p.result).maxs.y := by
  obtain ⟨p, hp, ho⟩ := reflectPose_defined self.m_camera mirror camera hx hd
  have hA : 0 < |mirror.scale * (self.m_size.x / 2)| :=
    abs_pos.mpr (mul_ne_zero hs (div_ne_zero hw two_ne_zero))
  have hB : 0 < |mirror.scale * (self.m_size.y / 2)| :=
    abs_pos.mpr (mul_ne_zero hs (div_ne_zero hh two_ne_zero))
  refine ⟨p, hp, reflect_of_pose self mirror camera p hp, ?_, ?_, rfl, rfl, rfl, rfl⟩
  · rw [reflectFrustum_args _ _ _ hq ho]
    simp only
    linarith
  · rw [reflectFrustum_args _ _ _ hq ho]
    simp only
    linarith

/-- C6: Mirror::reflect does not pass ordered bounds for every non-zero scale.
The mirror of size 2 × 2 at the origin with scale 2 and the viewer at
`(3, 0, 4)` meet every premise of the claim, but the world normal is
`(0, 0, 2)`, the dot product of line 38 is `8 / 5`, its arc-cosine is
undefined, and Mirror::reflect passes no bounds to the projection, where the
claim asks for `left < right` and `bottom < top`. -/
theorem frustum_bounds_example :
    squareMirror.m_size.x ≠ 0 ∧ squareMirror.m_size.y ≠ 0 ∧
      mirrorScaledTwice.scale ≠ 0 ∧ mirrorScaledTwice.orientation.IsUnit ∧
      viewerOffAxis.position ≠ mirrorScaledTwice.position ∧
      cross (Mirror.worldNormal mirrorScaledTwice)
        (viewerOffAxis.position.sub mirrorScaledTwice.position) ≠ ⟨0, 0, 0⟩ ∧
      normalize (viewerOffAxis.position.sub mirrorScaledTwice.position)
        = some ⟨3 / 5, 0, 4 / 5⟩ ∧
      acos (dot ⟨3 / 5, 0, 4 / 5⟩ (Mirror.worldNormal mirrorScaledTwice)) = none ∧
      Mirror.reflectPose squareMirror.m_camera mirrorScaledTwice viewerOffAxis = none ∧
      Mirror.reflect squareMirror mirrorScaledTwice viewerOffAxis = none := by
  have hn : Mirror.worldNormal mirrorScaledTwice = ⟨0, 0, 2⟩ := worldNormal_identity _ _
  have hd : (1 : ℝ) < dot ⟨3 / 5, 0, 4 / 5⟩ (Mirror.worldNormal mirrorScaledTwice) := by
    rw [hn]
    norm_num [dot]
  have hp : Mirror.reflectPose squareMirror.m_camera mirrorScaledTwice viewerOffAxis = none :=
    reflectPose_eq_none_of_acos _ _ _ _ (normalize_viewerOffAxis mirrorScaledTwice rfl) hd
  refine ⟨?_, ?_, ?_, isUnit_identity, ?_, ?_, normalize_viewerOffAxis mirrorScaledTwice rfl,
    ?_, hp, reflect_eq_none_of_pose _ _ _ hp⟩
  · norm_num [squareMirror]
  · norm_num [squareMirror]
  · norm_num [mirrorScaledTwice]
  · intro h
    have hx := congrArg Vec3.x h
    norm_num [viewerOffAxis, mirrorScaledTwice] at hx
  · rw [hn]
    intro h
    have hy := congrArg Vec3.y h
    norm_num [cross, viewerOffAxis, mirrorScaledTwice] at hy
  · unfold acos
    rw [if_neg (fun h => absurd h.2 (not_le.mpr hd))]

/-- C8: for a unit-scale mirror, any mirror size and a viewer off the mirror's
normal line, the values Mirror::reflect passes to the projection, computed
from the two diagonal corners only, are the per-axis minimum and maximum of x
and y, and the negated maximum of z, over all four corners of the quad taken
through the mirror's model matrix and the reflected camera's view matrix. -/
theorem frustum_eq_four_corner (self : Mirror) (mirror camera : Transform)
    (hq : mirror.orientation.IsUnit) (hs : mirror.scale = 1)
    (hx : cross (Mirror.worldNormal mirror) (camera.position.sub mirror.position) ≠ ⟨0, 0, 0⟩) :
    ∃ p, Mirror.reflectPose self.m_camera mirror camera = some p ∧
      Mirror.reflect self mirror camera
        = (frustum (Mirror.reflectFrustum self.m_size mirror p.result).args).map
            p.result.setProjection ∧
      (Mirror.reflectFrustum self.m_size mirror p.result).args
        = fourCornerFrustum self.m_size mirror p.result ∧
      (Mirror.reflectFrustum self.m_size mirror p.result).args
        = ⟨(Mirror.reflectFrustum self.m_size mirror p.result).mins.x,
            (Mirror.reflectFrustum self.m_size mirror p.result).maxs.x,
            (Mirror.reflectFrustum self.m_size mirror p.result).mins.y,
            (Mirror.reflectFrustum self.m_size mirror p.result).maxs.y,
            -(Mirror.reflectFrustum self.m_size mirror p.result).mins.z, 1000⟩ := by
  obtain ⟨p, hp, ho, -⟩ := reflectPose_position self.m_camera mirror camera hq hs hx
  refine ⟨p, hp, reflect_of_pose self mirror camera p hp, ?_, rfl⟩
  rw [reflectFrustum_args _ _ _ hq ho, fourCornerFrustum_args _ _ _ hq ho]

/-- The four-corner equality at the tilted mirror and the viewer at
`(2, 1, 3)`. -/
theorem frustum_eq_four_corner_witness :
    ∃ p, Mirror.reflectPose squareMirror.m_camera mirrorTilted viewerByTilted = some p ∧
      (Mirror.reflectFrustum squareMirror.m_size mirrorTilted p.result).args
        = fourCornerFrustum squareMirror.m_size mirrorTilted p.result := by
  obtain ⟨p, hp, -, h1, -⟩ :=
    frustum_eq_four_corner squareMirror mirrorTilted viewerByTilted isUnit_mirrorTilted rfl
      cross_viewerByTilted
  exact ⟨p, hp, h1⟩

/-- C10: for a unit-scale mirror and a viewer off the mirror's normal line, the
near value Mirror::reflect passes to the projection, `-mins.z`, is the signed
distance `dot(viewerPos - mirrorPos, worldNormal)` of the viewer from the mirror
plane: positive exactly when the viewer is strictly on the reflective side,
negative when the viewer is behind the mirror. -/
theorem frustum_near_eq_distance (self : Mirror) (mirror camera : Transform)
    (hq : mirror.orientation.IsUnit) (hs : mirror.scale = 1)
    (hx : cross (Mirror.worldNormal mirror) (camera.position.sub mirror.position) ≠ ⟨0, 0, 0⟩) :
    ∃ p, Mirror.reflectPose self.m_camera mirror camera = some p ∧
      Mirror.reflect self mirror camera
        = (frustum (Mirror.reflectFrustum self.m_size mirror p.result).args).map
            p.result.setProjection ∧
      (Mirror.reflectFrustum self.m_size mirror p.result).args.near
        = -(Mirror.reflectFrustum self.m_size mirror p.result).mins.z ∧
      (Mirror.reflectFrustum self.m_size mirror p.result).args.near
        = dot (camera.position.sub mirror.position) (Mirror.worldNormal mirror) ∧
      (0 < (Mirror.reflectFrustum self.m_size mirror p.result).args.near ↔
        0 < dot (camera.position.sub mirror.position) (Mirror.worldNormal mirror)) ∧
      (dot (camera.position.sub mirror.position) (Mirror.worldNormal mirror) < 0 →
        (Mirror.reflectFrustum self.m_size mirror p.result).args.near < 0) := by
  obtain ⟨p, hp, ho, -, hsub, -⟩ := reflectPose_position self.m_camera mirror camera hq hs hx
  have hnear := near_eq_of_pose self.m_size mirror camera p.result hq hs ho hsub
  refine ⟨p, hp, reflect_of_pose self mirror camera p hp, rfl, hnear, ?_, ?_⟩
  · rw [hnear]
  · intro h
    rw [hnear]
    exact h

/-- The near value at the tilted mirror and the viewer at `(2, 1, 3)` is
`24 / 25`. -/
theorem frustum_near_eq_distance_witness :
    ∃ p, Mirror.reflectPose squareMirror.m_camera mirrorTilted viewerByTilted = some p ∧
      (Mirror.reflectFrustum squareMirror.m_size mirrorTilted p.result).args.near
        = 24 / 25 := by
  obtain ⟨p, hp, -, -, h2, -⟩ :=
    frustum_near_eq_distance squareMirror mirrorTilted viewerByTilted isUnit_mirrorTilted rfl
      cross_viewerByTilted
  exact ⟨p, hp, by rw [h2, dot_viewerByTilted]⟩

/-! ## Render pass ordering -/

/-- C7: in a frame of Application3D::draw, for both values of usePostProc, the
Scene Predraw call is issued exactly once and before the one Scene Draw call;
with usePostProc the buffer's Begin is issued exactly once, before Scene Draw,
its End exactly once, after Scene Draw, DrawToScreen right after End, and no
render-target call follows DrawToScreen; without usePostProc no Begin, End or
DrawToScreen is issued. -/
theorem draw_pass_order :
    (∀ b : Bool,
      (Application3D.draw b).count .scenePredraw = 1 ∧
      (Application3D.draw b).count .sceneDraw = 1 ∧
      (Application3D.draw b).indexOf .scenePredraw < (Application3D.draw b).indexOf .sceneDraw) ∧
    ((Application3D.draw true).count .fboBegin = 1 ∧
      (Application3D.draw true).count .fboEnd = 1 ∧
      (Application3D.draw true).count .fboDrawToScreen = 1 ∧
      (Application3D.draw true).indexOf .scenePredraw < (Application3D.draw true).indexOf .fboBegin ∧
      (Application3D.draw true).indexOf .fboBegin < (Application3D.draw true).indexOf .sceneDraw ∧
      (Application3D.draw true).indexOf .sceneDraw < (Application3D.draw true).indexOf .fboEnd ∧
      (Application3D.draw true).indexOf .fboDrawToScreen
        = (Application3D.draw true).indexOf .fboEnd + 1 ∧
      ((Application3D.draw true).drop
        ((Application3D.draw true).indexOf .fboDrawToScreen + 1)).all
          (fun op => !op.isRenderTarget) = true) ∧
    ((Application3D.draw false).count .fboBegin = 0 ∧
      (Application3D.draw false).count .fboEnd = 0 ∧
      (Application3D.draw false).count .fboDrawToScreen = 0) := by
  refine ⟨?_, ?_, ?_⟩ <;> decide

end

end GraphicsEngine
